import Mathlib

/-!
Verification of the fiver delta-compression and versioning core.

The definitions below are a shallow embedding of the C sources
(`src/rolling_hash.c`, `src/hash_table.c`, `src/delta_algorithm.c`,
`src/storage_system.c`).  Byte buffers are `List Nat` (entries < 256 in
well-formed buffers); `uint32_t` arithmetic is `Nat` with explicit
`% 4294967296` where overflow can occur.  Fallible operations return
`Option`.  Machine loops are written as fuel-indexed recursions whose fuel
is large enough to cover every terminating execution of the C loop.
-/

namespace Fiver

/-- 2^32, the modulus of `uint32_t` arithmetic. -/
def U32MOD : Nat := 4294967296

/-- State of `RollingHash` (delta_structures.h): accumulators `a`, `b`, a
circular byte window, the write position and the fill count. -/
structure RollingHash where
  a : Nat
  b : Nat
  window_size : Nat
  window : List Nat
  window_pos : Nat
  bytes_in_window : Nat
deriving DecidableEq, Repr

/-- `rolling_hash_new` (rolling_hash.c): zeroed accumulators, zero-filled
window of `window_size` bytes. -/
def rolling_hash_new (window_size : Nat) : RollingHash :=
  { a := 0, b := 0, window_size := window_size,
    window := List.replicate window_size 0, window_pos := 0, bytes_in_window := 0 }

/-- The conditional 16-bit mask at the end of `rolling_hash_update`:
`if (x > 0xFFFF) x &= 0xFFFF;`.  For `x < 2^32`, `x &&& 0xFFFF = x % 65536`. -/
def mask16 (x : Nat) : Nat := if x > 65535 then x % 65536 else x

/-- `rolling_hash_update` (rolling_hash.c).  The old byte is read at
`window_pos`, the new byte stored there, the position advanced; then the
accumulators are updated (`b` uses the freshly assigned, still unmasked `a`)
and finally both are masked to 16 bits.  All intermediate arithmetic is
`uint32_t`, hence the explicit `% U32MOD`. -/
def rolling_hash_update (rh : RollingHash) (byte : Nat) : RollingHash :=
  let old_byte := rh.window.getD rh.window_pos 0
  let window := rh.window.set rh.window_pos byte
  let window_pos := (rh.window_pos + 1) % rh.window_size
  if rh.bytes_in_window < rh.window_size then
    let a1 := (rh.a + byte) % U32MOD
    let b1 := (rh.b + a1) % U32MOD
    { a := mask16 a1, b := mask16 b1, window_size := rh.window_size,
      window := window, window_pos := window_pos,
      bytes_in_window := rh.bytes_in_window + 1 }
  else
    let a1 := (rh.a + U32MOD - old_byte + byte) % U32MOD
    let b1 := (rh.b + a1 + U32MOD - (rh.window_size * old_byte) % U32MOD) % U32MOD
    { a := mask16 a1, b := mask16 b1, window_size := rh.window_size,
      window := window, window_pos := window_pos,
      bytes_in_window := rh.bytes_in_window }

/-- `rolling_hash_get` (rolling_hash.c): `(a << 16) | b` for a non-empty
window, else 0. -/
def rolling_hash_get (rh : RollingHash) : Nat :=
  if rh.bytes_in_window = 0 then 0 else (rh.a <<< 16) ||| rh.b

/-- Reference push transcribed from the spec's words (§4.1): when fewer than
`W` bytes have been pushed, `a ← a + byte`, `b ← b + a`; otherwise with `old`
the evicted window byte, `a ← a − old + byte`, `b ← b − W·old + a`; window and
position updated in both branches; both accumulators reduced to 16 bits after
every push. -/
def spec_push (rh : RollingHash) (byte : Nat) : RollingHash :=
  let old_byte := rh.window.getD rh.window_pos 0
  let window := rh.window.set rh.window_pos byte
  let window_pos := (rh.window_pos + 1) % rh.window_size
  if rh.bytes_in_window < rh.window_size then
    let a1 := (rh.a + byte) % 65536
    let b1 := (rh.b + a1) % 65536
    { a := a1, b := b1, window_size := rh.window_size,
      window := window, window_pos := window_pos,
      bytes_in_window := rh.bytes_in_window + 1 }
  else
    let a1 := (rh.a + byte + 65536 - old_byte % 65536) % 65536
    let b1 := (rh.b + a1 + 65536 - (rh.window_size * old_byte) % 65536) % 65536
    { a := a1, b := b1, window_size := rh.window_size,
      window := window, window_pos := window_pos,
      bytes_in_window := rh.bytes_in_window }

/-- Accumulator/window bounds maintained by the rolling hash. -/
def RHInv (rh : RollingHash) : Prop :=
  rh.a < 65536 ∧ rh.b < 65536 ∧ ∀ x ∈ rh.window, x < 256

/-- Seed index (hash_table.c).  Entries are kept newest-first (head insertion
into the bucket chain); `entries` holds every `(hash, offset)` pair in
reverse insertion order, which is exactly the walk order of each chain. -/
structure HashTable where
  bucket_count : Nat
  entries : List (Nat × Nat)
deriving DecidableEq, Repr

/-- `hash_table_new` (hash_table.c): empty buckets. -/
def hash_table_new (bucket_count : Nat) : HashTable :=
  { bucket_count := bucket_count, entries := [] }

/-- `hash_table_insert` (hash_table.c): head insertion into the chain of
bucket `hash % bucket_count`, modelled by prepending to the global
newest-first entry list. -/
def hash_table_insert (ht : HashTable) (hash offset : Nat) : HashTable :=
  { ht with entries := (hash, offset) :: ht.entries }

/-- The chain walked by `find_best_match_optimized`: `hash_table_find`
(hash_table.c) returns the first entry of bucket `hash % bucket_count` whose
full hash equals `hash`, and the caller then follows `next` through the rest
of that bucket's chain.  So the walked list is the bucket's chain with its
leading non-matching entries dropped. -/
def hash_table_find_chain (ht : HashTable) (hash : Nat) : List (Nat × Nat) :=
  if ht.bucket_count = 0 then []
  else
    (ht.entries.filter (fun e => e.1 % ht.bucket_count == hash % ht.bucket_count)).dropWhile
      (fun e => e.1 != hash)

/-- A match between the two buffers (delta_structures.h `Match`). -/
structure Match where
  original_offset : Nat
  new_offset : Nat
  length : Nat
deriving DecidableEq, Repr

/-- Equality of an `n`-byte machine-word read at `xs[i..i+n)` and `ys[j..j+n)`
(the 8-byte/4-byte stride compares in `find_best_match_optimized`).  A read
past the end of a buffer is modelled as the byte 0; at such indices the C
code reads memory beyond the allocation (its stride guards check
`match_length + n <= size` instead of `offset + match_length + n <= size`),
so this models one possible content of that out-of-bounds memory. -/
def chunk_eq (xs : List Nat) (i : Nat) (ys : List Nat) (j : Nat) (n : Nat) : Bool :=
  (List.range n).all fun k => xs.getD (i + k) 0 == ys.getD (j + k) 0

/-- The match-extension loop of `find_best_match_optimized`
(delta_algorithm.c ll. 282–311): extend while both buffers have a next byte
and the length is below 1 MiB, trying an 8-byte word compare, then a 4-byte
word compare, then a single-byte compare.  `fuel` bounds the recursion; every
iteration increases `ml`, so any fuel above `1048576 + 8` covers all
terminating C executions. -/
def extend_match (orig new : List Nat) (orig_off new_pos : Nat) :
    Nat → Nat → Nat
  | 0, ml => ml
  | fuel + 1, ml =>
    if new_pos + ml < new.length ∧ orig_off + ml < orig.length ∧ ml < 1048576 then
      if ml + 8 ≤ new.length ∧ ml + 8 ≤ orig.length ∧
          chunk_eq new (new_pos + ml) orig (orig_off + ml) 8 = true then
        extend_match orig new orig_off new_pos fuel (ml + 8)
      else if ml + 4 ≤ new.length ∧ ml + 4 ≤ orig.length ∧
          chunk_eq new (new_pos + ml) orig (orig_off + ml) 4 = true then
        extend_match orig new orig_off new_pos fuel (ml + 4)
      else if new.getD (new_pos + ml) 0 = orig.getD (orig_off + ml) 0 then
        extend_match orig new orig_off new_pos fuel (ml + 1)
      else ml
    else ml

/-- Fuel that covers every terminating run of the extension loop. -/
def EXTEND_FUEL : Nat := 1048585

/-- The length of the best match so far (`best_length` in
`find_best_match_optimized`, 0 while no match is held). -/
def best_len : Option Match → Nat
  | none => 0
  | some m => m.length

/-- The per-candidate update of `find_best_match_optimized`
(delta_algorithm.c ll. 277–326): extend the candidate from the window size
and replace the best match when the extension reaches `min_len` and beats
the best length. -/
def best_update (orig new : List Nat) (window_size new_pos min_len : Nat)
    (e : Nat × Nat) (best : Option Match) : Option Match :=
  let ml := extend_match orig new e.2 new_pos EXTEND_FUEL window_size
  if ml ≥ min_len ∧ ml > best_len best then
    some { original_offset := e.2, new_offset := new_pos, length := ml }
  else best

/-- The candidate walk of `find_best_match_optimized` (delta_algorithm.c
ll. 267–329): walk the chain, counting only entries whose full hash
matches, stopping after 20 such candidates. -/
def best_loop (orig new : List Nat) (window_size new_pos min_len hash : Nat) :
    List (Nat × Nat) → Nat → Option Match → Option Match
  | [], _, best => best
  | e :: rest, checked, best =>
    if checked < 20 then
      if e.1 = hash then
        best_loop orig new window_size new_pos min_len hash rest (checked + 1)
          (best_update orig new window_size new_pos min_len e best)
      else best_loop orig new window_size new_pos min_len hash rest checked best
    else best

/-- `find_best_match_optimized` (delta_algorithm.c).  The rolling hash is
long-lived: at position 0 it is filled with the first `window_size` bytes,
at later positions one byte is pushed; the (possibly updated) hash state is
returned together with the best match. -/
def find_best_match_optimized (orig new : List Nat) (ht : HashTable)
    (window_size new_pos min_len : Nat) (rh : RollingHash) :
    Option Match × RollingHash :=
  if new_pos + window_size > new.length then (none, rh)
  else
    let rh1 := if new_pos = 0 then
        (List.range window_size).foldl
          (fun r i => rolling_hash_update r (new.getD i 0)) rh
      else rolling_hash_update rh (new.getD (new_pos + window_size - 1) 0)
    let hash := rolling_hash_get rh1
    (best_loop orig new window_size new_pos min_len hash
      (hash_table_find_chain ht hash) 0 none, rh1)

/-- The match-collection loop of `delta_create` (delta_algorithm.c
ll. 865–924), shared verbatim by the first pass and the lenient retry pass
(ll. 955–1006), which differ only in the acceptance `threshold`
(`min_beneficial_match_length` resp. `lenient_min_beneficial`).  `fuel`
bounds the recursion; `i` advances by at least one in every iteration, so
`new.length + 1` fuel covers the whole C loop. -/
def match_scan_loop (orig new : List Nat) (ht : HashTable)
    (window_size min_len threshold : Nat) :
    Nat → Nat → Nat → RollingHash → List Match → List Match
  | 0, _, _, _, acc => acc
  | fuel + 1, i, last_end, rh, acc =>
    if i < new.length then
      if i < last_end then
        match_scan_loop orig new ht window_size min_len threshold fuel
          (i + 1) last_end rh acc
      else
        match find_best_match_optimized orig new ht window_size i min_len rh with
        | (some m, rh1) =>
          if m.length ≥ threshold then
            if m.new_offset ≥ last_end then
              match_scan_loop orig new ht window_size min_len threshold fuel
                (i + m.length) (m.new_offset + m.length) rh1 (acc ++ [m])
            else
              match_scan_loop orig new ht window_size min_len threshold fuel
                (i + 1) last_end rh1 acc
          else
            match_scan_loop orig new ht window_size min_len threshold fuel
              (i + 1) last_end rh1 acc
        | (none, rh1) =>
          match_scan_loop orig new ht window_size min_len threshold fuel
            (i + 1) last_end rh1 acc
    else acc

/-- One full match pass over the new buffer, starting from a fresh rolling
hash (both the first pass and the retry pass create their own). -/
def match_scan (orig new : List Nat) (ht : HashTable)
    (window_size min_len threshold : Nat) : List Match :=
  match_scan_loop orig new ht window_size min_len threshold (new.length + 1)
    0 0 (rolling_hash_new window_size) []

/-- Phase A of tier III (delta_algorithm.c ll. 805–821): slide the rolling
hash over the base and insert `(fingerprint, i − window_size + 1)` once the
window is full (`i >= window_size - 1`, i.e. `i + 1 ≥ window_size` for the
positive window sizes used). -/
def hash_table_build (orig : List Nat) (window_size bucket_count : Nat) :
    HashTable :=
  ((List.range orig.length).foldl
    (fun (s : RollingHash × HashTable) i =>
      let rh := rolling_hash_update s.1 (orig.getD i 0)
      if i + 1 ≥ window_size then
        (rh, hash_table_insert s.2 (rolling_hash_get rh) (i - (window_size - 1)))
      else (rh, s.2))
    (rolling_hash_new window_size, hash_table_new bucket_count)).2

/-- `min_beneficial_match_length` selection (delta_algorithm.c ll. 852–858):
32 above 50 MiB, 16 above 10 MiB, else 12. -/
def tier3_threshold (new_size : Nat) : Nat :=
  if new_size > 52428800 then 32 else if new_size > 10485760 then 16 else 12

/-- One tier III pass with window 32, `min_match_length` 32 and the given
acceptance threshold. -/
def tier3_pass (orig new : List Nat) (ht : HashTable) (threshold : Nat) :
    List Match :=
  match_scan orig new ht 32 32 threshold

/-- The matches `delta_create` hands to `create_delta_operations` in
tier III (delta_algorithm.c ll. 827–1024): the first pass with the
size-dependent threshold, then — when it accepted fewer than 10 matches and
the new buffer exceeds 1 MiB — the state is freed and replaced by the
lenient pass with threshold 32, whose matches are what reaches the planner
(the `lenient_match_count > match_count` comparison at l. 1012 only updates
the printed counters, not the state). -/
def tier3_matches (orig new : List Nat) : List Match :=
  let ht := hash_table_build orig 32 65536
  let pass1 := tier3_pass orig new ht (tier3_threshold new.length)
  if pass1.length < 10 ∧ new.length > 1048576 then tier3_pass orig new ht 32
  else pass1

/-- Operation type tags (delta_structures.h `DeltaOperationType`). -/
def DELTA_COPY : Nat := 0

/-- The INSERT tag. -/
def DELTA_INSERT : Nat := 1

/-- The REPLACE tag. -/
def DELTA_REPLACE : Nat := 2

/-- One delta operation (delta_structures.h `DeltaOperation`).  `type` is the
raw tag (the decoder can produce values outside 0..2); `data` is the owned
payload for INSERT/REPLACE, `none` for COPY. -/
structure DeltaOperation where
  type : Nat
  offset : Nat
  length : Nat
  data : Option (List Nat)
deriving DecidableEq, Repr

/-- A complete delta (delta_structures.h `DeltaInfo`); `operation_count` is
`operations.length`. -/
structure DeltaInfo where
  original_size : Nat
  new_size : Nat
  operations : List DeltaOperation
  delta_size : Nat
deriving DecidableEq, Repr

/-- Insert a match into a list sorted by `new_offset` (after any equal
keys, preserving encounter order).  Models the `qsort` call in
`create_delta_operations`; the scanner emits strictly increasing
`new_offset`s, so the order on ties is immaterial. -/
def insert_sorted (m : Match) : List Match → List Match
  | [] => [m]
  | x :: xs => if m.new_offset < x.new_offset then m :: x :: xs
    else x :: insert_sorted m xs

/-- Sort matches ascending by `new_offset` (delta_algorithm.c l. 427). -/
def sort_matches : List Match → List Match
  | [] => []
  | m :: rest => insert_sorted m (sort_matches rest)

/-- The operation-emission walk of `create_delta_operations`
(delta_algorithm.c ll. 439–551): for each match, an INSERT for the gap
before it, then the COPY; finally an INSERT for the tail after the last
match.  Returns the operations and the accumulated `delta_size` (sum of
INSERT payload lengths). -/
def planner_loop (new : List Nat) :
    List Match → Nat → List DeltaOperation → Nat →
    (List DeltaOperation × Nat)
  | [], cursor, ops, dsize =>
    if cursor < new.length then
      let l := new.length - cursor
      (ops ++ [⟨DELTA_INSERT, 0, l, some ((new.drop cursor).take l)⟩], dsize + l)
    else (ops, dsize)
  | m :: rest, cursor, ops, dsize =>
    let s := if m.new_offset > cursor then
        let il := m.new_offset - cursor
        (ops ++ [⟨DELTA_INSERT, 0, il, some ((new.drop cursor).take il)⟩],
         dsize + il)
      else (ops, dsize)
    planner_loop new rest (m.new_offset + m.length)
      (s.1 ++ [⟨DELTA_COPY, m.original_offset, m.length, none⟩]) s.2

/-- `create_delta_operations` (delta_algorithm.c): sort the matches, emit
the operations, and compute `new_size` as the `uint32_t` sum of all
operation lengths (ll. 554–569). -/
def create_delta_operations (orig new : List Nat) (ms : List Match) :
    DeltaInfo :=
  let r := planner_loop new (sort_matches ms) 0 [] 0
  { original_size := orig.length,
    new_size := r.1.foldl (fun acc op => (acc + op.length) % U32MOD) 0,
    operations := r.1,
    delta_size := r.2 }

/-- The common-prefix loop of `delta_create` (delta_algorithm.c
ll. 623–628 and 680–685): count equal leading bytes, stop at the first
mismatch or at the shorter buffer's end. -/
def common_prefix_len : List Nat → List Nat → Nat
  | x :: xs, y :: ys => if x = y then common_prefix_len xs ys + 1 else 0
  | _, _ => 0

/-- The common-suffix loop of `delta_create` (delta_algorithm.c
ll. 689–697): compare backwards from both ends while both cursors stay above
the common prefix.  The first argument of the recursion is `orig_end`, the
second `new_end`. -/
def common_suffix_loop (orig new : List Nat) (cp : Nat) : Nat → Nat → Nat
  | 0, _ => 0
  | oe + 1, ne =>
    if cp < oe + 1 ∧ cp < ne ∧ orig.getD oe 0 = new.getD (ne - 1) 0 then
      common_suffix_loop orig new cp oe (ne - 1) + 1
    else 0

/-- The chunk-based / tier III part of `delta_create` (delta_algorithm.c
ll. 673–1039), reached when tier I does not fire.  The C comparisons
`total_identical_bytes > original_size * 0.8` and
`change_size < original_size * 0.01` use `double` constants; the integer
inequalities `·*10 > ·*8` and `·*100 < ·` decide identically for every pair
of `uint32_t` sizes (the rounding error of `0.8`/`0.01` times a `u32` is far
below the distance of an integer to the nearest non-integer multiple). -/
def delta_create_t2 (orig new : List Nat) : DeltaInfo :=
  let cp := common_prefix_len orig new
  let cs := common_suffix_loop orig new cp orig.length new.length
  let total_identical := cp + cs
  let change_size := if new.length > orig.length then new.length - orig.length
    else orig.length - new.length
  if total_identical * 10 > orig.length * 8 ∨ change_size * 100 < orig.length then
    let middle_end := new.length - cs
    let pre_ops : List DeltaOperation :=
      if cp > 0 then [⟨DELTA_COPY, 0, cp, none⟩] else []
    let mid_ops : List DeltaOperation :=
      if cp < middle_end then
        [⟨DELTA_INSERT, 0, middle_end - cp, some ((new.drop cp).take (middle_end - cp))⟩]
      else []
    let suf_ops : List DeltaOperation :=
      if cs > 0 then [⟨DELTA_COPY, orig.length - cs, cs, none⟩] else []
    { original_size := orig.length, new_size := new.length,
      operations := pre_ops ++ mid_ops ++ suf_ops,
      delta_size := if cp < middle_end then middle_end - cp else 0 }
  else
    create_delta_operations orig new (tier3_matches orig new)

/-- `delta_create` (delta_algorithm.c).  Tier I (ll. 617–671): when the new
buffer is larger by fewer than 1000 bytes and the common prefix covers more
than 95 % of the base (`common_prefix > original_size * 0.95` with a
`double`, decided identically by `·*100 > ·*95` for all `u32` sizes), emit
`[Copy(0, prefix), Insert(tail)]`; otherwise fall through to
`delta_create_t2`. -/
def delta_create (orig new : List Nat) : DeltaInfo :=
  if new.length > orig.length ∧ new.length - orig.length < 1000 then
    let cp := common_prefix_len orig new
    if cp * 100 > orig.length * 95 then
      { original_size := orig.length, new_size := new.length,
        operations := [⟨DELTA_COPY, 0, cp, none⟩,
          ⟨DELTA_INSERT, 0, new.length - cp,
            some ((new.drop cp).take (new.length - cp))⟩],
        delta_size := new.length - cp }
    else delta_create_t2 orig new
  else delta_create_t2 orig new

/-- One write performed by `apply_delta` (storage_system.c): a `memcpy` of
`len` bytes to `output_buffer + pos`.  `bytes` is the in-range part of the
source bytes that the model can name (for a COPY it is
`original[offset .. offset+len)` clipped to the buffer; the C code reads all
`len` bytes unconditionally).  When the writes are sequential and in bounds
— `pos` equal to the sum of the previous lengths, no `uint32_t` wrap — the
output buffer's content is the concatenation of the `bytes` fields. -/
structure WriteRec where
  pos : Nat
  len : Nat
  bytes : List Nat
deriving DecidableEq, Repr

/-- The operation loop of `apply_delta` (storage_system.c ll. 747–794).
`pos` is the `uint32_t` output cursor; each recognised operation is
bounds-checked with `output_pos + op->length > output_buffer_size` in
`uint32_t` arithmetic (hence the `% U32MOD`), a COPY additionally requires a
base buffer; operations with a tag other than COPY/INSERT/REPLACE hit no
`switch` case and are skipped silently.  Returns the writes and the final
cursor (the C return value). -/
def apply_ops (orig : Option (List Nat)) (cap : Nat) :
    List DeltaOperation → Nat → List WriteRec →
    Option (List WriteRec × Nat)
  | [], pos, acc => some (acc, pos)
  | op :: rest, pos, acc =>
    if op.type = DELTA_COPY then
      if (pos + op.length) % U32MOD > cap then none
      else match orig with
        | none => none
        | some o =>
          apply_ops orig cap rest ((pos + op.length) % U32MOD)
            (acc ++ [⟨pos, op.length, (o.drop op.offset).take op.length⟩])
    else if op.type = DELTA_INSERT ∨ op.type = DELTA_REPLACE then
      if (pos + op.length) % U32MOD > cap then none
      else
        apply_ops orig cap rest ((pos + op.length) % U32MOD)
          (acc ++ [⟨pos, op.length, op.data.getD []⟩])
    else apply_ops orig cap rest pos acc

/-- `apply_delta` (storage_system.c): fail upfront when the buffer capacity
is below `new_size`, then run the operation loop. -/
def apply_delta (delta : DeltaInfo) (orig : Option (List Nat)) (cap : Nat) :
    Option (List WriteRec × Nat) :=
  if cap < delta.new_size then none
  else apply_ops orig cap delta.operations 0 []

/-- The bytes `apply_delta` leaves in the output buffer, valid whenever the
writes are sequential (no `uint32_t` wrap of the cursor), which holds for
every stream whose operation lengths sum below 2^32. -/
def apply_delta_bytes (delta : DeltaInfo) (orig : Option (List Nat))
    (cap : Nat) : Option (List Nat) :=
  (apply_delta delta orig cap).map fun r => (r.1.map WriteRec.bytes).flatten

/-- `apply_delta_alloc` (storage_system.c ll. 826–856): reject a delta whose
`new_size` is 0, allocate `new_size` bytes, apply, free-and-fail on error. -/
def apply_delta_alloc (orig : Option (List Nat)) (delta : DeltaInfo) :
    Option (List Nat) :=
  if delta.new_size = 0 then none
  else match apply_delta delta orig delta.new_size with
    | none => none
    | some r => some ((r.1.map WriteRec.bytes).flatten)

/-- The version-2-onward loop of `reconstruct_file_from_deltas`
(storage_system.c ll. 930–952). -/
def reconstruct_loop : List Nat → List DeltaInfo → Option (List Nat)
  | cur, [] => some cur
  | cur, d :: ds =>
    match apply_delta_alloc (some cur) d with
    | none => none
    | some nxt => reconstruct_loop nxt ds

/-- `reconstruct_file_from_deltas` (storage_system.c), over the chain of
already-loaded deltas for versions 1..target: version 1 is applied to an
absent base, each later delta to the running buffer.  An empty chain means
version 1 could not be loaded. -/
def reconstruct_from_deltas : List DeltaInfo → Option (List Nat)
  | [] => none
  | d :: ds =>
    match apply_delta_alloc none d with
    | none => none
    | some buf => reconstruct_loop buf ds

/-- The fields of the fixed-width `.meta` record (delta_structures.h
`FileMetadata`) that `load_delta` consumes. -/
structure MetaRecord where
  original_size : Nat
  delta_size : Nat
  operation_count : Nat
deriving DecidableEq, Repr

/-- A 4-byte little-endian `fread` of a `uint32_t` at `pos`; fails (returns
0 items) when fewer than 4 bytes remain. -/
def read_u32 (bytes : List Nat) (pos : Nat) : Option Nat :=
  if pos + 4 ≤ bytes.length then
    some (bytes.getD pos 0 + 256 * bytes.getD (pos + 1) 0 +
      65536 * bytes.getD (pos + 2) 0 + 16777216 * bytes.getD (pos + 3) 0)
  else none

/-- The operation-reading loop of `load_delta` (storage_system.c
ll. 493–541): read `operation_count` headers of three `uint32_t`s; for
INSERT/REPLACE additionally read `length` payload bytes (failing when the
file is too short); any other tag — COPY included — carries no payload.  No
validation of a COPY's range against the declared base size is performed. -/
def load_ops (bytes : List Nat) :
    Nat → Nat → List DeltaOperation → Option (List DeltaOperation)
  | 0, _, acc => some acc
  | n + 1, pos, acc =>
    match read_u32 bytes pos, read_u32 bytes (pos + 4), read_u32 bytes (pos + 8) with
    | some ty, some off, some len =>
      if ty = DELTA_INSERT ∨ ty = DELTA_REPLACE then
        if pos + 12 + len ≤ bytes.length then
          load_ops bytes n (pos + 12 + len)
            (acc ++ [⟨ty, off, len, some ((bytes.drop (pos + 12)).take len)⟩])
        else none
      else load_ops bytes n (pos + 12) (acc ++ [⟨ty, off, len, none⟩])
    | _, _, _ => none

/-- `load_delta` (storage_system.c ll. 421–567) given the already-read
`.meta` record and the raw `.delta` file bytes: read the operations, then
compute `new_size` as the `uint32_t` sum of all operation lengths
(ll. 546–561). -/
def load_delta (meta : MetaRecord) (bytes : List Nat) : Option DeltaInfo :=
  (load_ops bytes meta.operation_count 0 []).map fun ops =>
    { original_size := meta.original_size,
      new_size := ops.foldl (fun acc op => (acc + op.length) % U32MOD) 0,
      operations := ops,
      delta_size := meta.delta_size }

/-- `get_file_versions` (storage_system.c ll. 597–631) as a function of the
set of version numbers whose `.meta` file exists: probe versions 1..100 in
order, collecting those present, stopping once `max_versions` are found. -/
def get_file_versions (present : List Nat) (max_versions : Nat) : List Nat :=
  ((List.range' 1 100).filter (fun v => v ∈ present)).take max_versions

/-- The version-number logic of `track_file_version` (storage_system.c
ll. 987–1078) as a function of the set of existing versions: reject an empty
file before any probing or file creation, else return
`max(get_file_versions ·) + 1`, or 1 for a fresh file.  (The subsequent
delta creation and save do not change the assigned number.) -/
def track_file_version_num (present : List Nat) (file_size : Nat) :
    Option Nat :=
  if file_size = 0 then none
  else
    let versions := get_file_versions present 100
    match versions with
    | [] => some 1
    | v :: vs => some (vs.foldl (fun mx x => if x > mx then x else mx) v + 1)

/-- A delta with every operation of an unrecognised type removed (the
operations `apply_delta`'s `switch` has a case for); all size fields are
kept. -/
def remove_unknown (d : DeltaInfo) : DeltaInfo :=
  { d with operations := d.operations.filter fun op =>
      op.type == DELTA_COPY || op.type == DELTA_INSERT || op.type == DELTA_REPLACE }

/-- Base buffer of the round-trip counterexample: the 32-byte window
`0,1,1,0,0,…,0` followed by 8 distinct bytes.  Its window has the same
rolling hash (`a = 2`, `b = 61`) as the different window leading
`c1_new`. -/
def c1_base : List Nat := [0, 1, 1, 0] ++ List.replicate 28 0 ++ List.range' 100 8

/-- New buffer of the round-trip counterexample: the 32-byte window
`1,0,0,1,0,…,0` (a rolling-hash collision with `c1_base`'s leading window —
equal byte sum and equal weighted sum) followed by 28 distinct bytes. -/
def c1_new : List Nat := [1, 0, 0, 1] ++ List.replicate 28 0 ++ List.range' 200 28

/-- Base buffer of the Copy-bounds counterexample: the 40 bytes 1..40. -/
def c2_base : List Nat := List.range' 1 40

/-- New buffer of the Copy-bounds counterexample: `c2_base[1..40)` followed
by the byte 0 (the model's value of the out-of-bounds byte `c2_base[40]`)
and 20 distinct bytes, so the 8-byte stride compare extends the match at
base offset 1 across the end of the base. -/
def c2_new : List Nat := List.range' 2 39 ++ [0] ++ List.range' 200 20

/-- A `.meta` record declaring `base_size = 0` with one operation. -/
def c3_meta : MetaRecord := { original_size := 0, delta_size := 0, operation_count := 1 }

/-- A `.delta` file holding the single header `Copy(source_offset 5,
length 10)` (twelve little-endian bytes), out of range for a base of
size 0. -/
def c3_bytes : List Nat := [0, 0, 0, 0, 5, 0, 0, 0, 10, 0, 0, 0]

/-- The operation stream `load_delta` produces from `c3_bytes`. -/
def c3_delta : DeltaInfo :=
  { original_size := 0, new_size := 10,
    operations := [⟨DELTA_COPY, 5, 10, none⟩], delta_size := 0 }

/-- A `.meta` record declaring three operations over a 1-byte base. -/
def c4_meta : MetaRecord := { original_size := 1, delta_size := 0, operation_count := 3 }

/-- A crafted `.delta` file: `Insert` of 1 byte, `Copy(0, 0xFFFFFFFF)`,
`Insert` of 5 bytes.  The `uint32_t` sum of the lengths wraps to 5, so the
loaded stream declares `new_size = 5`. -/
def c4_bytes : List Nat :=
  [1, 0, 0, 0, 0, 0, 0, 0, 1, 0, 0, 0, 170] ++
  [0, 0, 0, 0, 0, 0, 0, 0, 255, 255, 255, 255] ++
  [1, 0, 0, 0, 0, 0, 0, 0, 5, 0, 0, 0, 1, 2, 3, 4, 5]

/-- The stream `load_delta` produces from `c4_bytes`. -/
def c4_delta : DeltaInfo :=
  { original_size := 1, new_size := 5,
    operations := [⟨DELTA_INSERT, 0, 1, some [170]⟩,
      ⟨DELTA_COPY, 0, 4294967295, none⟩,
      ⟨DELTA_INSERT, 0, 5, some [1, 2, 3, 4, 5]⟩],
    delta_size := 0 }

/-- The writes `apply_delta` performs for `c4_delta` on a 5-byte output
buffer: the second one puts its last byte at index 2^32 − 1. -/
def c4_writes : List WriteRec :=
  [⟨0, 1, [170]⟩, ⟨1, 4294967295, [9]⟩, ⟨0, 5, [1, 2, 3, 4, 5]⟩]

end Fiver

set_option maxRecDepth 1000000

namespace Fiver

theorem mask16_eq_mod (x : Nat) : mask16 x = x % 65536 := by
  unfold mask16
  split
  · rfl
  · exact (Nat.mod_eq_of_lt (by omega)).symm

theorem rolling_hash_update_eq_spec_push (rh : RollingHash) (byte : Nat)
    (hinv : RHInv rh) (hb : byte < 256) :
    rolling_hash_update rh byte = spec_push rh byte := by
  obtain ⟨ha, hbb, hw⟩ := hinv
  have hold : rh.window.getD rh.window_pos 0 < 256 := by
    rcases Nat.lt_or_ge rh.window_pos rh.window.length with h | h
    · rw [List.getD_eq_getElem _ _ h]
      exact hw _ (List.getElem_mem h)
    · rw [List.getD_eq_default _ _ h]; omega
  unfold rolling_hash_update spec_push
  by_cases hfull : rh.bytes_in_window < rh.window_size
  · simp only [hfull, if_true]
    rw [RollingHash.mk.injEq]
    refine ⟨?_, ?_, rfl, rfl, rfl, rfl⟩
    · rw [mask16_eq_mod]
      unfold U32MOD
      omega
    · rw [mask16_eq_mod]
      unfold U32MOD
      omega
  · simp only [hfull, if_false]
    rw [RollingHash.mk.injEq]
    set old := rh.window.getD rh.window_pos 0 with hodef
    refine ⟨?_, ?_, rfl, rfl, rfl, rfl⟩
    · rw [mask16_eq_mod]
      unfold U32MOD
      omega
    · rw [mask16_eq_mod]
      unfold U32MOD
      generalize rh.window_size * old = p
      omega

theorem RHInv_update (rh : RollingHash) (byte : Nat) (h : RHInv rh)
    (hb : byte < 256) : RHInv (rolling_hash_update rh byte) := by
  obtain ⟨ha, hbb, hw⟩ := h
  have hset : ∀ x ∈ rh.window.set rh.window_pos byte, x < 256 := by
    intro x hx
    rcases List.mem_or_eq_of_mem_set hx with h | h
    · exact hw _ h
    · omega
  have hm : ∀ y : Nat, mask16 y < 65536 := by
    intro y
    rw [mask16_eq_mod]
    exact Nat.mod_lt _ (by norm_num)
  unfold rolling_hash_update
  by_cases hfull : rh.bytes_in_window < rh.window_size <;>
    simp only [hfull, if_true, if_false] <;>
    exact ⟨hm _, hm _, hset⟩

theorem RHInv_new (w : Nat) : RHInv (rolling_hash_new w) := by
  refine ⟨by simp [rolling_hash_new], by simp [rolling_hash_new], ?_⟩
  intro x hx
  rw [List.eq_of_mem_replicate hx]
  norm_num

theorem foldl_update_eq_push (bs : List Nat) :
    ∀ rh : RollingHash, RHInv rh → (∀ b ∈ bs, b < 256) →
      bs.foldl rolling_hash_update rh = bs.foldl spec_push rh := by
  induction bs with
  | nil => intro rh _ _; rfl
  | cons b bs ih =>
    intro rh hinv hbs
    have hb : b < 256 := hbs b (List.mem_cons_self b bs)
    simp only [List.foldl_cons]
    rw [← rolling_hash_update_eq_spec_push rh b hinv hb]
    exact ih _ (RHInv_update rh b hinv hb) (fun x hx => hbs x (List.mem_cons_of_mem _ hx))

/-- C7: for every window size `W > 0` and every byte sequence, the
implementation's `rolling_hash_update` computes exactly the reference push
described by the spec (`spec_push`: accumulate `a`/`b` below the window
size, subtract the evicted byte and `W·old` once full, update window and
position in both branches, reduce both accumulators to 16 bits after every
push), and `rolling_hash_get` returns `(a <<< 16) ||| b` on a non-empty
window and 0 on an empty one. -/
theorem rolling_hash_bit_exact :
    (∀ (W : Nat) (bs : List Nat), 0 < W → (∀ b ∈ bs, b < 256) →
      bs.foldl rolling_hash_update (rolling_hash_new W) =
        bs.foldl spec_push (rolling_hash_new W)) ∧
    (∀ rh : RollingHash, rolling_hash_get rh =
      if rh.bytes_in_window = 0 then 0 else (rh.a <<< 16) ||| rh.b) := by
  constructor
  · intro W bs _ hbs
    exact foldl_update_eq_push bs _ (RHInv_new W) hbs
  · intro rh
    rfl

/-- Witness for C7 at `W = 3` and the byte sequence `10, 20, 30, 40, 250`. -/
theorem rolling_hash_bit_exact_witness :
    (0 < 3 ∧ ∀ b ∈ ([10, 20, 30, 40, 250] : List Nat), b < 256) ∧
    ([10, 20, 30, 40, 250] : List Nat).foldl rolling_hash_update (rolling_hash_new 3) =
      ([10, 20, 30, 40, 250] : List Nat).foldl spec_push (rolling_hash_new 3) :=
  ⟨⟨by decide, by decide⟩, rolling_hash_bit_exact.1 3 _ (by decide) (by decide)⟩

/-- C1 (divergence witness): on the colliding buffers `c1_base`/`c1_new`
the stream produced by `delta_create` replays to the base's leading window
followed by the new tail — not to `c1_new` — because the optimized match
finder accepted the hash collision without comparing the window bytes.
Round-trip `apply(deltify(B, N), B) = N` fails at this input. -/
theorem roundtrip_fails_on_collision :
    apply_delta_bytes (delta_create c1_base c1_new) (some c1_base)
      (delta_create c1_base c1_new).new_size =
      some (c1_base.take 32 ++ c1_new.drop 32) ∧
    c1_base.take 32 ++ c1_new.drop 32 ≠ c1_new :=
  ⟨by decide, by decide⟩

/-- C2 (divergence witness): on `c2_base`/`c2_new` the emitted stream
contains a Copy whose `source_offset + length` exceeds the base size
(`Copy(1, 40)` against a 40-byte base): the 8-byte stride of
`find_best_match_optimized` checks `match_length + 8 ≤ original_size`
instead of `original_offset + match_length + 8 ≤ original_size` and extends
the match across the end of the base. -/
theorem copy_can_exceed_base_size :
    ∃ op ∈ (delta_create c2_base c2_new).operations,
      op.type = DELTA_COPY ∧ c2_base.length < op.offset + op.length := by
  decide

/-- C3 (divergence witness): `load_delta` returns the operation stream for
a delta whose single Copy has `source_offset + length = 15` against a
declared base size of 0, instead of failing: the decoder performs no range
validation of Copy operations. -/
theorem loader_accepts_out_of_range_copy :
    load_delta c3_meta c3_bytes = some c3_delta ∧
    ∃ op ∈ c3_delta.operations,
      op.type = DELTA_COPY ∧ c3_delta.original_size < op.offset + op.length :=
  ⟨by decide, by decide⟩

/-- C4 (divergence witness): the crafted `.delta` file `c4_bytes` decodes
successfully to a stream declaring `new_size = 5` (the `uint32_t` sum of
its operation lengths wraps), and `apply_delta` on a buffer of exactly that
capacity passes all its bounds checks — the check
`output_pos + op->length > output_buffer_size` also wraps — and performs a
write of 0xFFFFFFFF bytes starting at index 1, far past the declared
target size. -/
theorem crafted_delta_writes_past_capacity :
    load_delta c4_meta c4_bytes = some c4_delta ∧
    apply_delta c4_delta (some [9]) c4_delta.new_size = some (c4_writes, 5) ∧
    ∃ w ∈ c4_writes, c4_delta.new_size < w.pos + w.len :=
  ⟨by decide, by decide, by decide⟩

/-- C5 (divergence witness): with versions 1..100 present, two consecutive
successful `track_file_version` calls both return 101 — the version probe
scans only versions 1..100, so version 101's metadata is never seen and the
second call reassigns (and overwrites) version 101 instead of returning
102. -/
theorem version_probe_cap_breaks_monotonicity :
    track_file_version_num (List.range' 1 100) 1 = some 101 ∧
    track_file_version_num (101 :: List.range' 1 100) 1 = some 101 :=
  ⟨by decide, by decide⟩

theorem common_prefix_len_self (l : List Nat) :
    common_prefix_len l l = l.length := by
  induction l with
  | nil => rfl
  | cons x xs ih => simp [common_prefix_len, ih]

theorem common_suffix_loop_of_le (orig new : List Nat) (cp oe ne : Nat)
    (h : oe ≤ cp) : common_suffix_loop orig new cp oe ne = 0 := by
  cases oe with
  | zero => rfl
  | succ k =>
    unfold common_suffix_loop
    rw [if_neg]
    intro hc
    omega

/-- C8: for every base buffer of length 4096, the delta from the buffer to
itself is the single operation `Copy(0, 4096)` with no Insert (the
chunk-based tier fires with a full common prefix and empty middle). -/
theorem identity_delta_shape (B : List Nat) (h : B.length = 4096) :
    delta_create B B =
      { original_size := 4096, new_size := 4096,
        operations := [⟨DELTA_COPY, 0, 4096, none⟩], delta_size := 0 } := by
  have hcp : common_prefix_len B B = 4096 := by rw [common_prefix_len_self, h]
  have hcs : common_suffix_loop B B 4096 4096 4096 = 0 :=
    common_suffix_loop_of_le _ _ _ _ _ (Nat.le_refl _)
  unfold delta_create
  rw [if_neg (by omega)]
  unfold delta_create_t2
  simp only [hcp, h, hcs]
  rw [if_pos (by norm_num)]
  norm_num

/-- Witness for C8 at the constant buffer of 4096 sevens. -/
theorem identity_delta_shape_witness :
    (List.replicate 4096 7 : List Nat).length = 4096 ∧
    delta_create (List.replicate 4096 7) (List.replicate 4096 7) =
      { original_size := 4096, new_size := 4096,
        operations := [⟨DELTA_COPY, 0, 4096, none⟩], delta_size := 0 } :=
  ⟨List.length_replicate 4096 7, identity_delta_shape _ (List.length_replicate 4096 7)⟩

theorem apply_ops_filter_recognised (orig : Option (List Nat)) (cap : Nat) :
    ∀ (ops : List DeltaOperation) (pos : Nat) (acc : List WriteRec),
      apply_ops orig cap (ops.filter fun op =>
        op.type == DELTA_COPY || op.type == DELTA_INSERT ||
          op.type == DELTA_REPLACE) pos acc =
      apply_ops orig cap ops pos acc := by
  intro ops
  induction ops with
  | nil => intro pos acc; rfl
  | cons op rest ih =>
    intro pos acc
    rw [List.filter_cons]
    by_cases hrec : (op.type == DELTA_COPY || op.type == DELTA_INSERT ||
        op.type == DELTA_REPLACE) = true
    · rw [if_pos hrec]
      unfold apply_ops
      split
      · split
        · rfl
        · cases orig with
          | none => rfl
          | some o => exact ih _ _
      · split
        · split
          · rfl
          · exact ih _ _
        · exact ih _ _
    · rw [if_neg hrec]
      simp only [Bool.or_eq_true, beq_iff_eq, not_or] at hrec
      obtain ⟨⟨h0, h1⟩, h2⟩ := hrec
      have hstep : apply_ops orig cap (op :: rest) pos acc =
          apply_ops orig cap rest pos acc := by
        conv_lhs => unfold apply_ops
        rw [if_neg h0, if_neg (not_or.mpr ⟨h1, h2⟩)]
      rw [hstep]
      exact ih _ _

theorem apply_ops_all_unknown (orig : Option (List Nat)) (cap : Nat) :
    ∀ (ops : List DeltaOperation), (∀ op ∈ ops, op.type ≠ DELTA_COPY ∧
        op.type ≠ DELTA_INSERT ∧ op.type ≠ DELTA_REPLACE) →
      ∀ (pos : Nat) (acc : List WriteRec),
        apply_ops orig cap ops pos acc = some (acc, pos) := by
  intro ops
  induction ops with
  | nil => intro _ pos acc; rfl
  | cons op rest ih =>
    intro hall pos acc
    obtain ⟨h0, h1, h2⟩ := hall op (List.mem_cons_self op rest)
    unfold apply_ops
    simp only [h0, if_false, h1, h2, or_self, or_false, false_or]
    exact ih (fun o ho => hall o (List.mem_cons_of_mem _ ho)) pos acc

/-- C9: `apply_delta` silently skips every operation whose tag is not
Copy, Insert or Replace — removing the unrecognised operations from a
stream changes neither the writes, nor the returned byte count, nor the
error behaviour — and a stream consisting solely of unknown-typed
operations (with its declared `new_size` within the buffer capacity, as
`load_delta` computes `new_size = 0` for such a stream) succeeds with no
writes and byte count 0. -/
theorem unknown_ops_skipped :
    (∀ (d : DeltaInfo) (orig : Option (List Nat)) (cap : Nat),
      apply_delta (remove_unknown d) orig cap = apply_delta d orig cap) ∧
    (∀ (d : DeltaInfo) (orig : Option (List Nat)) (cap : Nat),
      (∀ op ∈ d.operations, op.type ≠ DELTA_COPY ∧ op.type ≠ DELTA_INSERT ∧
        op.type ≠ DELTA_REPLACE) →
      d.new_size ≤ cap → apply_delta d orig cap = some ([], 0)) := by
  constructor
  · intro d orig cap
    unfold apply_delta remove_unknown
    simp only
    split
    · rfl
    · exact apply_ops_filter_recognised orig cap d.operations 0 []
  · intro d orig cap hall hcap
    unfold apply_delta
    rw [if_neg (by omega)]
    exact apply_ops_all_unknown orig cap d.operations hall 0 []

/-- Witness for C9 at a one-operation stream with the unknown tag 7. -/
theorem unknown_ops_skipped_witness :
    (∀ op ∈ (⟨0, 0, [⟨7, 0, 3, none⟩], 0⟩ : DeltaInfo).operations,
      op.type ≠ DELTA_COPY ∧ op.type ≠ DELTA_INSERT ∧ op.type ≠ DELTA_REPLACE) ∧
    (⟨0, 0, [⟨7, 0, 3, none⟩], 0⟩ : DeltaInfo).new_size ≤ 9 ∧
    apply_delta ⟨0, 0, [⟨7, 0, 3, none⟩], 0⟩ none 9 = some ([], 0) :=
  ⟨by decide, by decide,
    unknown_ops_skipped.2 ⟨0, 0, [⟨7, 0, 3, none⟩], 0⟩ none 9 (by decide) (by decide)⟩

theorem apply_delta_alloc_of_zero (orig : Option (List Nat)) (d : DeltaInfo)
    (h : d.new_size = 0) : apply_delta_alloc orig d = none := by
  unfold apply_delta_alloc
  rw [if_pos h]

theorem reconstruct_loop_last_zero (d : DeltaInfo) (h : d.new_size = 0) :
    ∀ (ds : List DeltaInfo) (cur : List Nat),
      reconstruct_loop cur (ds ++ [d]) = none := by
  intro ds
  induction ds with
  | nil =>
    intro cur
    rw [List.nil_append]
    simp only [reconstruct_loop]
    rw [apply_delta_alloc_of_zero (some cur) d h]
  | cons d1 ds ih =>
    intro cur
    rw [List.cons_append]
    simp only [reconstruct_loop]
    cases hd1 : apply_delta_alloc (some cur) d1 with
    | none => rfl
    | some nxt => exact ih nxt

/-- C10: empty content is unrepresentable — `track_file_version` fails for
`file_size = 0` before creating anything, `apply_delta_alloc` fails for a
delta declaring `new_size = 0`, and hence `reconstruct_file_from_deltas`
fails for any chain whose target version's delta declares an empty
reconstruction. -/
theorem empty_content_rejected :
    (∀ (present : List Nat) (file_size : Nat), file_size = 0 →
      track_file_version_num present file_size = none) ∧
    (∀ (orig : Option (List Nat)) (d : DeltaInfo), d.new_size = 0 →
      apply_delta_alloc orig d = none) ∧
    (∀ (ds : List DeltaInfo) (d : DeltaInfo), d.new_size = 0 →
      reconstruct_from_deltas (ds ++ [d]) = none) := by
  refine ⟨?_, apply_delta_alloc_of_zero, ?_⟩
  · intro present fs h
    unfold track_file_version_num
    rw [if_pos h]
  · intro ds d h
    cases ds with
    | nil =>
      rw [List.nil_append]
      simp only [reconstruct_from_deltas]
      rw [apply_delta_alloc_of_zero none d h]
    | cons d1 ds =>
      rw [List.cons_append]
      simp only [reconstruct_from_deltas]
      cases hd1 : apply_delta_alloc none d1 with
      | none => rfl
      | some buf => exact reconstruct_loop_last_zero d h ds buf

/-- Witness for C10: empty file rejected, zero-size delta rejected, and a
one-version chain with a zero-size delta fails to reconstruct. -/
theorem empty_content_rejected_witness :
    track_file_version_num [] 0 = none ∧
    apply_delta_alloc none ⟨0, 0, [], 0⟩ = none ∧
    reconstruct_from_deltas [(⟨0, 0, [], 0⟩ : DeltaInfo)] = none :=
  ⟨empty_content_rejected.1 [] 0 rfl,
   empty_content_rejected.2.1 none _ rfl,
   by simpa using empty_content_rejected.2.2 [] ⟨0, 0, [], 0⟩ rfl⟩

theorem best_update_length_ge (orig new : List Nat)
    (W p L : Nat) (e : Nat × Nat) (best : Option Match)
    (hbest : ∀ mb, best = some mb → L ≤ mb.length) :
    ∀ mb, best_update orig new W p L e best = some mb → L ≤ mb.length := by
  intro mb hmb
  unfold best_update at hmb
  simp only [] at hmb
  split at hmb
  · rename_i hcond
    cases hmb
    exact hcond.1
  · exact hbest mb hmb

theorem best_loop_length_ge (orig new : List Nat) (W p L hash : Nat) :
    ∀ (cands : List (Nat × Nat)) (checked : Nat) (best : Option Match),
      (∀ mb, best = some mb → L ≤ mb.length) →
      ∀ m, best_loop orig new W p L hash cands checked best = some m →
        L ≤ m.length := by
  intro cands
  induction cands with
  | nil => intro checked best hbest m hm; exact hbest m hm
  | cons e rest ih =>
    intro checked best hbest m hm
    unfold best_loop at hm
    split at hm
    · split at hm
      · exact ih _ _ (best_update_length_ge orig new W p L e best hbest) m hm
      · exact ih _ _ hbest m hm
    · exact hbest m hm

theorem find_best_match_length_ge (orig new : List Nat) (ht : HashTable)
    (W p L : Nat) (rh : RollingHash) :
    ∀ m, (find_best_match_optimized orig new ht W p L rh).1 = some m →
      L ≤ m.length := by
  intro m hm
  unfold find_best_match_optimized at hm
  split at hm
  · simp at hm
  · simp only at hm
    exact best_loop_length_ge orig new W p L _ _ _ none
      (fun mb h => by cases h) m hm

theorem match_scan_loop_threshold_eq (orig new : List Nat) (ht : HashTable)
    (W L t1 t2 : Nat) (h1 : t1 ≤ L) (h2 : t2 ≤ L) :
    ∀ (fuel i last_end : Nat) (rh : RollingHash) (acc : List Match),
      match_scan_loop orig new ht W L t1 fuel i last_end rh acc =
      match_scan_loop orig new ht W L t2 fuel i last_end rh acc := by
  intro fuel
  induction fuel with
  | zero => intro i last_end rh acc; rfl
  | succ fuel ih =>
    intro i last_end rh acc
    unfold match_scan_loop
    by_cases hi : i < new.length
    · rw [if_pos hi, if_pos hi]
      by_cases hle : i < last_end
      · rw [if_pos hle, if_pos hle]
        exact ih _ _ _ _
      · rw [if_neg hle, if_neg hle]
        rcases hfm : find_best_match_optimized orig new ht W i L rh with ⟨fst, rh1⟩
        cases fst with
        | none => exact ih _ _ _ _
        | some m =>
          have hlen : L ≤ m.length := by
            have : (find_best_match_optimized orig new ht W i L rh).1 = some m := by
              rw [hfm]
            exact find_best_match_length_ge orig new ht W i L rh m this
          simp only
          rw [if_pos (by omega : m.length ≥ t1), if_pos (by omega : m.length ≥ t2)]
          by_cases hov : m.new_offset ≥ last_end
          · rw [if_pos hov, if_pos hov]
            exact ih _ _ _ _
          · rw [if_neg hov, if_neg hov]
            exact ih _ _ _ _
    · rw [if_neg hi, if_neg hi]

theorem tier3_pass_threshold_eq (orig new : List Nat) (ht : HashTable)
    (t : Nat) (h : t ≤ 32) :
    tier3_pass orig new ht t = tier3_pass orig new ht 32 := by
  unfold tier3_pass match_scan
  exact match_scan_loop_threshold_eq orig new ht 32 32 t 32 h (Nat.le_refl 32)
    _ _ _ _ _

theorem tier3_threshold_le (n : Nat) : tier3_threshold n ≤ 32 := by
  unfold tier3_threshold
  split
  · omega
  · split <;> omega

/-- C6: in tier III, when the first match pass accepted fewer than 10
matches and the new buffer exceeds 1 MiB, the scan is repeated with the
lenient threshold 32 and the match set handed to the operation planner is
the one of whichever pass produced more matches.  (Both passes run the same
scan — every match the finder returns already has length at least the
`min_match_length` 32, so the thresholds 12/16/32 never filter anything —
hence the retained retry state coincides with the more-productive pass.) -/
theorem retry_pass_keeps_larger_match_set (orig new : List Nat) :
    tier3_matches orig new =
      (let ht := hash_table_build orig 32 65536
       let pass1 := tier3_pass orig new ht (tier3_threshold new.length)
       let pass2 := tier3_pass orig new ht 32
       if pass1.length < 10 ∧ new.length > 1048576 then
         (if pass2.length > pass1.length then pass2 else pass1)
       else pass1) := by
  have hp : tier3_pass orig new (hash_table_build orig 32 65536)
      (tier3_threshold new.length) =
      tier3_pass orig new (hash_table_build orig 32 65536) 32 :=
    tier3_pass_threshold_eq orig new _ _ (tier3_threshold_le new.length)
  unfold tier3_matches
  simp only [hp, ite_self]

end Fiver
